import Mathlib

/-!
# jiacrontab: the worker-side scheduler (`client/crontab.go`)

A shallow embedding of the handle table and of the steps that the goroutines of
`crontab.run` and `crontab.deal` perform on it, followed by the properties of the
scheduler that are checked against that embedding.

Conventions of the embedding

* A `context.CancelFunc` and a `chan time.Time` are reference values; they are
  represented by their identity, a natural number.  Calling a cancel function is
  recorded in the list of fired triggers that a step returns.
* A Go slice is `Option (List _)`: `none` is the `nil` slice, `some l` is a
  non-nil slice with the elements `l`.  The distinction matters because the kill
  goroutine tests `handle.cancelCmdArray != nil`.
* `c.handleMap` is a finite map from task id to `*handle`; it is represented by
  its lookup function.  A write through the pointer is a write of the entry.
* `int` and `int64` values are only compared, never computed with, so they are
  `Int`.  `NumberProcess` is an `int32` updated by `atomic.AddInt32`, which wraps;
  the wrap is explicit (`wrapInt32`).
* A run-time panic (index out of range, nil dereference) is the result `none`.
* `step` and `run` execute the halves of an instance goroutine as units, which
  is exact for the handle table and the counter; `microStep` and `microRun`
  execute the same lines with the goroutines interleaved, which is what decides
  `task.State`.
-/

namespace Jiacrontab

/-- Identity of a `context.CancelFunc`. -/
abbrev CancelFunc := Nat

/-- Identity of a `chan time.Time`. -/
abbrev ClockChan := Nat

/-- A Go slice `[]context.CancelFunc`: `none` is `nil`. -/
abbrev CancelSlice := Option (List CancelFunc)

/-- The Go builtin `len` on a slice (`len(nil) == 0`). -/
def sliceLen : CancelSlice → Nat
  | none => 0
  | some l => l.length

/-- The elements of a slice, in order (none for `nil`). -/
def sliceElems : CancelSlice → List CancelFunc
  | none => []
  | some l => l

/-- The Go builtin `append(s, x)`: the result is never `nil`. -/
def sliceAppend (s : CancelSlice) (x : CancelFunc) : CancelSlice :=
  some (sliceElems s ++ [x])

/-- The struct `handle` of `crontab.go`. -/
structure handle where
  cancel : CancelFunc
  cancelCmdArray : CancelSlice
  clockChan : ClockChan
  timeout : Int
  deriving DecidableEq, Repr

/-- Modelled from the spec: the declaration of `proto.TaskArgs` (package
`jiacrontab/libs/proto`) is not part of the sources at hand.  The record has the
fields that `crontab.go` reads or writes in the code embedded below, with the
types that code forces on them (`MaxConcurrent` is compared with `len`, so it is
an `int`; `NumberProcess` is passed to `atomic.AddInt32`; `Timeout` is converted
to a duration, an `int64`). -/
structure TaskArgs where
  Id : String
  State : Int
  Timeout : Int
  OpTimeout : String
  MaxConcurrent : Int
  NumberProcess : Int
  LastExecTime : Int
  LastCostTime : Int
  deriving DecidableEq, Repr

/-- The part of the struct `crontab` that the steps below touch: `handleMap`.
The three channels only carry the commands to the goroutines of `run`.  The
lock makes atomic what stands between `c.lock.Lock()` and `c.lock.Unlock()`:
the map write of the add goroutine, lines 166-173 of the kill goroutine and
lines 221-229 of an instance goroutine.  The writes of `task.State` and the
updates of `task.NumberProcess` stand outside the lock; their interleavings
are the subject of the section on interleaved execution. -/
structure crontab where
  handleMap : String → Option handle

/-- The map write `c.handleMap[id] = h`. -/
def crontab.store (c : crontab) (id : String) (h : handle) : crontab :=
  { handleMap := fun k => if k = id then some h else c.handleMap k }

/-- Two's complement wrap of an `int32` result, as `atomic.AddInt32` computes it. -/
def wrapInt32 (x : Int) : Int :=
  (x + 2147483648) % 4294967296 - 2147483648

/-! ## `quickStart` -/

/-- The seconds `quickStart` passes to `context.WithTimeout`
(`crontab.go`, lines 49-54):
`var timeout int64; if t.Timeout == 0 { timeout = 60 }`. -/
def quickStartTimeout (t : TaskArgs) : Int :=
  let timeout : Int := 0
  if t.Timeout = 0 then 60 else timeout

/-! ## The add goroutine of `run` -/

/-- Result of one iteration of the add goroutine. -/
structure AddResult where
  c : crontab
  task : TaskArgs

/-- One iteration of the add goroutine of `run` (lines 132-142) for the task
received from `taskChan`.  `cancel` is the cancel function that
`context.WithCancel` returns and `clockChan` the channel that `make` returns.
There is no lookup before the map write. -/
def addTask (c : crontab) (task : TaskArgs) (cancel : CancelFunc)
    (clockChan : ClockChan) : AddResult :=
  let task1 := { task with State := 1 }
  { c := c.store task1.Id
      { cancel := cancel, cancelCmdArray := none, clockChan := clockChan, timeout := 0 },
    task := task1 }

/-! ## The kill goroutine of `run` -/

/-- Result of one iteration of the kill goroutine: the table, the task, the
cancel functions called (in call order) and whether `globalStore.Sync` ran. -/
structure KillResult where
  c : crontab
  task : TaskArgs
  fired : List CancelFunc
  synced : Bool

/-- One iteration of the kill goroutine of `run` (lines 165-181) for the task
received from `killTaskChan`. -/
def killTask (c : crontab) (task : TaskArgs) : KillResult :=
  match c.handleMap task.Id with
  | some h =>
    match h.cancelCmdArray with
    | some arr =>
      { c := c.store task.Id { h with cancelCmdArray := some [] },
        task := { task with State := 1 },
        fired := arr,
        synced := true }
    | none => { c := c, task := task, fired := [], synced := false }
  | none => { c := c, task := task, fired := [], synced := false }

/-! ## The instance goroutine of `deal` -/

/-- The admission step on the handle (lines 223-227):
```
if len(hdl.cancelCmdArray) >= task.MaxConcurrent {
    hdl.cancelCmdArray[0]()
    hdl.cancelCmdArray = hdl.cancelCmdArray[1:]
}
hdl.cancelCmdArray = append(hdl.cancelCmdArray, cancel)
```
The result is the handle and the cancel functions called; `none` is the panic
of the index expression `hdl.cancelCmdArray[0]` on a slice of length 0. -/
def admission (hdl : handle) (MaxConcurrent : Int) (cancel : CancelFunc) :
    Option (handle × List CancelFunc) :=
  if MaxConcurrent ≤ (sliceLen hdl.cancelCmdArray : Int) then
    match hdl.cancelCmdArray with
    | some (c0 :: rest) =>
      some ({ hdl with cancelCmdArray := sliceAppend (some rest) cancel }, [c0])
    | _ => none
  else
    some ({ hdl with cancelCmdArray := sliceAppend hdl.cancelCmdArray cancel }, [])

/-- Result of the first half of an instance goroutine. -/
structure AdmissionResult where
  c : crontab
  task : TaskArgs
  fired : List CancelFunc
  flag : Bool

/-- The instance goroutine of `deal` from the match of the cron predicate up to
the call of `execScript` (lines 213-254): `task.LastExecTime = now2.Unix()`,
`flag := true`, `task.State = 2`, the admission step on `c.handleMap[task.Id]`
under the lock, and `atomic.AddInt32(&task.NumberProcess, 1)`.  `cancel` is the
cancel function of the new instance.  `none` is a panic: the handle is absent
(nil dereference) or the admission step indexes out of range. -/
def dealAdmission (c : crontab) (task : TaskArgs) (cancel : CancelFunc) (now2 : Int) :
    Option AdmissionResult :=
  let task1 := { task with LastExecTime := now2 }
  let flag := true
  let task2 := { task1 with State := 2 }
  match c.handleMap task2.Id with
  | none => none
  | some hdl =>
    match admission hdl task2.MaxConcurrent cancel with
    | none => none
    | some (hdl1, fired) =>
      some { c := c.store task2.Id hdl1,
             task := { task2 with NumberProcess := wrapInt32 (task2.NumberProcess + 1) },
             fired := fired,
             flag := flag }

/-- What the delayed action can do. -/
inductive TimeoutEffect where
  | sendMail
  | cancel (f : CancelFunc)
  deriving DecidableEq, Repr

/-- The body of the function given to `time.AfterFunc` (lines 233-250), in call
order.  `flag` is the value of the instance's variable `flag` when the action
runs and `cancel` the instance's cancel function. -/
def timeoutAction (flag : Bool) (OpTimeout : String) (cancel : CancelFunc) :
    List TimeoutEffect :=
  if flag then
    if OpTimeout = "email" then [TimeoutEffect.sendMail]
    else if OpTimeout = "kill" then [TimeoutEffect.cancel cancel]
    else if OpTimeout = "email_and_kill" then
      [TimeoutEffect.cancel cancel, TimeoutEffect.sendMail]
    else if OpTimeout = "ignore" then []
    else []
  else []

/-- Result of the second half of an instance goroutine. -/
structure CompleteResult where
  c : crontab
  task : TaskArgs
  flag : Bool

/-- The instance goroutine of `deal` after `execScript` has returned
(lines 256-265): `flag = false`, `task.LastCostTime = ...`,
`atomic.AddInt32(&task.NumberProcess, -1)`, then `task.State` is 1 if
`task.NumberProcess == 0` and 2 otherwise.  The handle table is not accessed. -/
def dealComplete (c : crontab) (task : TaskArgs) (cost : Int) : CompleteResult :=
  let flag := false
  let task1 := { task with LastCostTime := cost }
  let task2 := { task1 with NumberProcess := wrapInt32 (task1.NumberProcess - 1) }
  let task3 := if task2.NumberProcess = 0 then { task2 with State := 1 }
               else { task2 with State := 2 }
  { c := c, task := task3, flag := flag }

/-! ## Runs of one task -/

/-- The steps of the scheduler that concern one task after it was added. -/
inductive Event where
  | launch (cancel : CancelFunc) (now2 : Int)
  | complete (cost : Int)
  | kill
  deriving DecidableEq, Repr

/-- The table and the task record between two steps. -/
structure Sys where
  c : crontab
  task : TaskArgs

/-- One step; `none` when the instance goroutine panics.  A step runs one half of
an instance goroutine, or one iteration of the kill goroutine, from its first
line to its last without another goroutine in between.  For the handle table
(written under the lock only) and for the counter (updated atomically only)
this loses no behaviour; for `task.State` see `microStep`, which runs the
same lines one shared access at a time. -/
def step (s : Sys) : Event → Option Sys
  | Event.launch cancel now2 =>
    match dealAdmission s.c s.task cancel now2 with
    | some r => some { c := r.c, task := r.task }
    | none => none
  | Event.complete cost =>
    let r := dealComplete s.c s.task cost
    some { c := r.c, task := r.task }
  | Event.kill =>
    let r := killTask s.c s.task
    some { c := r.c, task := r.task }

/-- A sequence of steps, oldest first. -/
def run (s : Sys) : List Event → Option Sys
  | [] => some s
  | e :: es =>
    match step s e with
    | some s1 => run s1 es
    | none => none

/-- The table with no handle. -/
def emptyCrontab : crontab := { handleMap := fun _ => none }

/-- A freshly added task: the state right after the add goroutine has
processed `task` on the table `c`. -/
def fresh (c : crontab) (task : TaskArgs) (cancel : CancelFunc) (clockChan : ClockChan) :
    Sys :=
  let r := addTask c task cancel clockChan
  { c := r.c, task := r.task }

/-- The `cancelCmdArray` of the task's handle (`nil` when there is no handle). -/
def Sys.cancelCmdArray (s : Sys) : CancelSlice :=
  match s.c.handleMap s.task.Id with
  | some h => h.cancelCmdArray
  | none => none

/-- Every completion in the sequence belongs to an earlier admission: the
first argument counts the instance goroutines that are inside `execScript`. -/
def balancedFrom : Nat → List Event → Bool
  | _, [] => true
  | n, Event.launch _ _ :: es => balancedFrom (n + 1) es
  | n, Event.complete _ :: es =>
    match n with
    | 0 => false
    | m + 1 => balancedFrom m es
  | n, Event.kill :: es => balancedFrom n es

/-- No kill step in the sequence. -/
def noKill : List Event → Bool
  | [] => true
  | Event.kill :: _ => false
  | _ :: es => noKill es

/-- Number of admissions in the sequence. -/
def admissions : List Event → Nat
  | [] => 0
  | Event.launch _ _ :: es => admissions es + 1
  | _ :: es => admissions es

/-- Number of completions in the sequence. -/
def completions : List Event → Nat
  | [] => 0
  | Event.complete _ :: es => completions es + 1
  | _ :: es => completions es

/-! ## Interleaved execution

The instance goroutines of one task, and the kill goroutine, write `task.State`
and update `task.NumberProcess` outside the lock.  Here a goroutine advances by
one locked section, one atomic update of the counter, one read of the counter or
one write of `task.State` at a time, and the goroutines advance in any order. -/

/-- Where an instance goroutine stands. -/
inductive Pc where
  /-- No goroutine of this name runs: not started yet, or returned. -/
  | absent
  /-- After `task.State = 2` (line 218), before `c.lock.Lock()` (line 221). -/
  | entered
  /-- After `c.lock.Unlock()` (line 229), before `atomic.AddInt32(.., 1)`. -/
  | admitted
  /-- After `atomic.AddInt32(.., 1)` (line 254), inside `execScript`. -/
  | running
  /-- After `atomic.AddInt32(.., -1)` (line 259), before the read of line 260. -/
  | decremented
  /-- After the read `task.NumberProcess == 0` of line 260, with its result. -/
  | decided (zero : Bool)
  deriving DecidableEq, Repr

/-- The shared state and the position of every goroutine.  `pc g` is the position
of the instance goroutine named `g`.  `killPc` is the position of the kill
goroutine: `none` while it waits on `killTaskChan`, `some b` after its
`c.lock.Unlock()`, where `b` tells whether it took the branch of line 168
(`handle.cancelCmdArray != nil`) and so still has `task.State = 1` to run. -/
structure Conc where
  c : crontab
  task : TaskArgs
  pc : Nat → Pc
  killPc : Option Bool

/-- The position of goroutine `g` becomes `p`. -/
def setPc (pc : Nat → Pc) (g : Nat) (p : Pc) : Nat → Pc :=
  fun k => if k = g then p else pc k

/-- One advance of one goroutine. -/
inductive Micro where
  /-- Lines 213-218 of goroutine `g`: `task.LastExecTime`, `flag := true`,
  `task.State = 2`. -/
  | enter (g : Nat) (now2 : Int)
  /-- Lines 219-229: the new cancel function and the admission under the lock. -/
  | lockedAdmission (g : Nat) (cancel : CancelFunc)
  /-- Lines 231-254: the timer is set up, then `atomic.AddInt32(.., 1)`. -/
  | increment (g : Nat)
  /-- Lines 255-259: `execScript` returns, `flag = false`, `task.LastCostTime`,
  `atomic.AddInt32(.., -1)`. -/
  | decrement (g : Nat) (cost : Int)
  /-- Line 260: the read `task.NumberProcess == 0`. -/
  | readCounter (g : Nat)
  /-- Line 261 or 263: the write of `task.State`; the goroutine returns. -/
  | writeState (g : Nat)
  /-- Lines 165-173 (or 177, 180) of the kill goroutine, under the lock. -/
  | killLocked
  /-- Lines 174-175 of the kill goroutine when the branch was taken. -/
  | killFinish
  deriving DecidableEq, Repr

/-- One advance; `none` when the goroutine is not at the position of the
advance, or when it panics (absent handle, index out of range). -/
def microStep (m : Conc) : Micro → Option Conc
  | Micro.enter g now2 =>
    match m.pc g with
    | Pc.absent =>
      some { m with task := { m.task with LastExecTime := now2, State := 2 },
                    pc := setPc m.pc g Pc.entered }
    | _ => none
  | Micro.lockedAdmission g cancel =>
    match m.pc g with
    | Pc.entered =>
      match m.c.handleMap m.task.Id with
      | none => none
      | some hdl =>
        match admission hdl m.task.MaxConcurrent cancel with
        | none => none
        | some (hdl1, _) =>
          some { m with c := m.c.store m.task.Id hdl1, pc := setPc m.pc g Pc.admitted }
    | _ => none
  | Micro.increment g =>
    match m.pc g with
    | Pc.admitted =>
      some { m with task := { m.task with
                                NumberProcess := wrapInt32 (m.task.NumberProcess + 1) },
                    pc := setPc m.pc g Pc.running }
    | _ => none
  | Micro.decrement g cost =>
    match m.pc g with
    | Pc.running =>
      some { m with task := { m.task with
                                LastCostTime := cost,
                                NumberProcess := wrapInt32 (m.task.NumberProcess - 1) },
                    pc := setPc m.pc g Pc.decremented }
    | _ => none
  | Micro.readCounter g =>
    match m.pc g with
    | Pc.decremented =>
      some { m with pc := setPc m.pc g (Pc.decided (decide (m.task.NumberProcess = 0))) }
    | _ => none
  | Micro.writeState g =>
    match m.pc g with
    | Pc.decided zero =>
      some { m with task := { m.task with State := if zero then 1 else 2 },
                    pc := setPc m.pc g Pc.absent }
    | _ => none
  | Micro.killLocked =>
    match m.killPc with
    | some _ => none
    | none =>
      match m.c.handleMap m.task.Id with
      | some h =>
        match h.cancelCmdArray with
        | some _ =>
          some { m with c := m.c.store m.task.Id { h with cancelCmdArray := some [] },
                        killPc := some true }
        | none => some { m with killPc := some false }
      | none => some { m with killPc := some false }
  | Micro.killFinish =>
    match m.killPc with
    | some true => some { m with task := { m.task with State := 1 }, killPc := none }
    | some false => some { m with killPc := none }
    | none => none

/-- A schedule: a sequence of advances, oldest first. -/
def microRun (m : Conc) : List Micro → Option Conc
  | [] => some m
  | a :: as =>
    match microStep m a with
    | some m1 => microRun m1 as
    | none => none

/-- A freshly added task with no instance goroutine and the kill goroutine
waiting. -/
def freshConc (c : crontab) (task : TaskArgs) (cancel : CancelFunc)
    (clockChan : ClockChan) : Conc :=
  let r := addTask c task cancel clockChan
  { c := r.c, task := r.task, pc := fun _ => Pc.absent, killPc := none }

/-- A goroutine's half, or an iteration of the kill goroutine, that runs from
its first line to its last without another goroutine in between. -/
inductive Block where
  | launch (g : Nat) (cancel : CancelFunc) (now2 : Int)
  | complete (g : Nat) (cost : Int)
  | kill
  deriving DecidableEq, Repr

/-- The advances of a block. -/
def Block.micro : Block → List Micro
  | Block.launch g cancel now2 =>
    [Micro.enter g now2, Micro.lockedAdmission g cancel, Micro.increment g]
  | Block.complete g cost =>
    [Micro.decrement g cost, Micro.readCounter g, Micro.writeState g]
  | Block.kill => [Micro.killLocked, Micro.killFinish]

/-- The schedule in which the blocks run one after the other. -/
def serial : List Block → List Micro
  | [] => []
  | b :: bs => b.micro ++ serial bs

/-- The step that a block amounts to when nothing runs in between. -/
def Block.toEvent : Block → Event
  | Block.launch _ cancel now2 => Event.launch cancel now2
  | Block.complete _ cost => Event.complete cost
  | Block.kill => Event.kill

/-- The blocks fit together: a goroutine is launched under a name that no
running goroutine has, and the goroutine that completes is running.  The first
argument lists the goroutines inside `execScript`. -/
def wellFormedFrom : List Nat → List Block → Bool
  | _, [] => true
  | running, Block.launch g _ _ :: bs =>
    if g ∈ running then false else wellFormedFrom (g :: running) bs
  | running, Block.complete g _ :: bs =>
    if g ∈ running then wellFormedFrom (running.erase g) bs else false
  | running, Block.kill :: bs => wellFormedFrom running bs

/-! ## Concrete inputs used below -/

/-- A task record with id `"k"`, bound `m` and timeout `t`. -/
def taskK (m : Int) (t : Int) : TaskArgs :=
  { Id := "k", State := 0, Timeout := t, OpTimeout := "kill", MaxConcurrent := m,
    NumberProcess := 0, LastExecTime := 0, LastCostTime := 0 }

/-- A handle with control cancel 1, channel 2 and the given instance cancels. -/
def handleK (arr : CancelSlice) : handle :=
  { cancel := 1, cancelCmdArray := arr, clockChan := 2, timeout := 0 }

/-- A table whose only handle is `handleK arr`, under the id `"k"`. -/
def tableK (arr : CancelSlice) : crontab :=
  emptyCrontab.store "k" (handleK arr)

/-! ## Basic facts -/

theorem wrapInt32_of_range (x : Int) (h1 : -2147483648 ≤ x) (h2 : x < 2147483648) :
    wrapInt32 x = x := by
  unfold wrapInt32
  omega

theorem sliceLen_eq_length (s : CancelSlice) : sliceLen s = (sliceElems s).length := by
  cases s <;> rfl

theorem store_same (c : crontab) (id : String) (h : handle) :
    (c.store id h).handleMap id = some h := by
  simp [crontab.store]

theorem store_other (c : crontab) (id k : String) (h : handle) (hk : k ≠ id) :
    (c.store id h).handleMap k = c.handleMap k := by
  simp [crontab.store, hk]

theorem crontab_ext (c d : crontab) (h : ∀ k, c.handleMap k = d.handleMap k) : c = d := by
  cases c
  cases d
  congr
  funext k
  exact h k

theorem store_store (c : crontab) (id : String) (h1 h2 : handle) :
    (c.store id h1).store id h2 = c.store id h2 := by
  apply crontab_ext
  intro k
  by_cases hk : k = id <;> simp [crontab.store, hk]

/-- The admission step when the slice is shorter than the bound. -/
theorem admission_room (hdl : handle) (M : Int) (cancel : CancelFunc)
    (h : (sliceLen hdl.cancelCmdArray : Int) < M) :
    admission hdl M cancel
      = some ({ hdl with cancelCmdArray := some (sliceElems hdl.cancelCmdArray ++ [cancel]) },
              []) := by
  unfold admission
  rw [if_neg (by omega)]
  rfl

/-- The admission step when the slice is non-empty and has reached the bound. -/
theorem admission_full (hdl : handle) (M : Int) (cancel c0 : CancelFunc)
    (rest : List CancelFunc) (harr : hdl.cancelCmdArray = some (c0 :: rest))
    (h : M ≤ (sliceLen hdl.cancelCmdArray : Int)) :
    admission hdl M cancel
      = some ({ hdl with cancelCmdArray := some (rest ++ [cancel]) }, [c0]) := by
  unfold admission
  rw [if_pos h, harr]
  rfl

/-- The admission step when the slice is empty and the bound is not positive. -/
theorem admission_empty_panics (hdl : handle) (M : Int) (cancel : CancelFunc)
    (hlen : sliceLen hdl.cancelCmdArray = 0) (h : M ≤ 0) :
    admission hdl M cancel = none := by
  unfold admission
  rw [if_pos (by omega)]
  cases harr : hdl.cancelCmdArray with
  | none => rfl
  | some l =>
    cases l with
    | nil => rfl
    | cons a l => simp [harr, sliceLen] at hlen

/-- A non-empty slice has a first element. -/
theorem slice_cons_of_pos (s : CancelSlice) (h : 0 < sliceLen s) :
    ∃ c0 rest, s = some (c0 :: rest) := by
  cases s with
  | none => simp [sliceLen] at h
  | some l =>
    cases l with
    | nil => simp [sliceLen] at h
    | cons a l => exact ⟨a, l, rfl⟩

/-! ## Admission -/

/-- C10: the index expression `hdl.cancelCmdArray[0]` of the admission step is out
of range, so that the step panics and yields no handle, exactly when the slice is
empty and `MaxConcurrent <= 0`; for `MaxConcurrent >= 1` the step never panics;
for `MaxConcurrent == 0` the first admission on a freshly added task panics, on
the handle and in the instance goroutine as a whole. -/
theorem admission_out_of_range_iff (hdl : handle) (MaxConcurrent : Int)
    (cancel : CancelFunc) :
    (admission hdl MaxConcurrent cancel = none
        ↔ sliceLen hdl.cancelCmdArray = 0 ∧ MaxConcurrent ≤ 0) ∧
    (1 ≤ MaxConcurrent → (admission hdl MaxConcurrent cancel).isSome = true) ∧
    (∀ (c : crontab) (task : TaskArgs) (k : CancelFunc) (ch : ClockChan) (now2 : Int),
      admission { cancel := k, cancelCmdArray := none, clockChan := ch, timeout := 0 }
          0 cancel = none ∧
      step (fresh c { task with MaxConcurrent := 0 } k ch) (Event.launch cancel now2)
          = none) := by
  have key : admission hdl MaxConcurrent cancel = none
      ↔ sliceLen hdl.cancelCmdArray = 0 ∧ MaxConcurrent ≤ 0 := by
    constructor
    · intro hnone
      by_cases hge : MaxConcurrent ≤ (sliceLen hdl.cancelCmdArray : Int)
      · by_cases hpos : 0 < sliceLen hdl.cancelCmdArray
        · obtain ⟨c0, rest, harr⟩ := slice_cons_of_pos _ hpos
          rw [admission_full hdl MaxConcurrent cancel c0 rest harr hge] at hnone
          exact absurd hnone (by simp)
        · have h0 : sliceLen hdl.cancelCmdArray = 0 := by omega
          refine ⟨h0, ?_⟩
          rw [h0] at hge
          exact_mod_cast hge
      · rw [admission_room hdl MaxConcurrent cancel (by omega)] at hnone
        exact absurd hnone (by simp)
    · rintro ⟨h0, hM⟩
      exact admission_empty_panics hdl MaxConcurrent cancel h0 hM
  refine ⟨key, ?_, ?_⟩
  · intro hM
    cases hadm : admission hdl MaxConcurrent cancel with
    | some r => rfl
    | none =>
      have := (key.mp hadm).2
      omega
  · intro c task k ch now2
    constructor
    · rfl
    · simp [step, fresh, addTask, dealAdmission, store_same, admission, sliceLen]

/-- Instance of C10: with bound 1 the admission on an empty slice succeeds, with
bound 0 it panics. -/
theorem admission_out_of_range_iff_witness :
    (admission (handleK none) 1 7).isSome = true ∧
    admission (handleK none) 0 7 = none :=
  ⟨(admission_out_of_range_iff (handleK none) 1 7).2.1 (by decide),
   (admission_out_of_range_iff (handleK none) 0 7).1.mpr ⟨rfl, by decide⟩⟩

/-- C2: with `MaxConcurrent >= 1` the admission step on a slice `L` with a new
trigger `c` yields `L ++ [c]` and calls no cancel function when
`len(L) < MaxConcurrent`; when `len(L) >= MaxConcurrent` the slice is
`head :: rest`, the step yields `rest ++ [c]` and calls exactly `head`.  The
surviving triggers keep their order and the new trigger is last. -/
theorem admission_evicts_oldest (hdl : handle) (MaxConcurrent : Int)
    (cancel : CancelFunc) (hM : 1 ≤ MaxConcurrent) :
    ((sliceLen hdl.cancelCmdArray : Int) < MaxConcurrent →
      admission hdl MaxConcurrent cancel
        = some ({ hdl with
                    cancelCmdArray := some (sliceElems hdl.cancelCmdArray ++ [cancel]) },
                [])) ∧
    (MaxConcurrent ≤ (sliceLen hdl.cancelCmdArray : Int) →
      ∃ c0 rest, sliceElems hdl.cancelCmdArray = c0 :: rest ∧
        admission hdl MaxConcurrent cancel
          = some ({ hdl with cancelCmdArray := some (rest ++ [cancel]) }, [c0])) := by
  constructor
  · intro hlt
    exact admission_room hdl MaxConcurrent cancel hlt
  · intro hge
    have hpos : 0 < sliceLen hdl.cancelCmdArray := by omega
    obtain ⟨c0, rest, harr⟩ := slice_cons_of_pos _ hpos
    refine ⟨c0, rest, ?_, admission_full hdl MaxConcurrent cancel c0 rest harr hge⟩
    rw [harr]
    rfl

/-- Instance of C2: bound 2, slice `[5, 6]`, new trigger 7: trigger 5 is called
and the slice becomes `[6, 7]`. -/
theorem admission_evicts_oldest_witness :
    ∃ c0 rest, sliceElems (handleK (some [5, 6])).cancelCmdArray = c0 :: rest ∧
      admission (handleK (some [5, 6])) 2 7
        = some ({ handleK (some [5, 6]) with cancelCmdArray := some (rest ++ [7]) }, [c0]) :=
  (admission_evicts_oldest (handleK (some [5, 6])) 2 7 (by decide)).2 (by decide)

/-! ## The delayed timeout action -/

/-- C5: when the delayed action runs, the instance's cancel function is called
exactly when `flag` is still true and `OpTimeout` is `"kill"` or
`"email_and_kill"`; a mail is sent exactly when `flag` is still true and
`OpTimeout` is `"email"` or `"email_and_kill"`; nothing else is called; and the
completion half of the instance goroutine leaves `flag` false. -/
theorem timeoutAction_dispatch (flag : Bool) (OpTimeout : String) (cancel : CancelFunc) :
    (TimeoutEffect.cancel cancel ∈ timeoutAction flag OpTimeout cancel
        ↔ flag = true ∧ (OpTimeout = "kill" ∨ OpTimeout = "email_and_kill")) ∧
    (TimeoutEffect.sendMail ∈ timeoutAction flag OpTimeout cancel
        ↔ flag = true ∧ (OpTimeout = "email" ∨ OpTimeout = "email_and_kill")) ∧
    (∀ f, TimeoutEffect.cancel f ∈ timeoutAction flag OpTimeout cancel → f = cancel) ∧
    timeoutAction flag "ignore" cancel = [] ∧
    timeoutAction false OpTimeout cancel = [] ∧
    (∀ (c : crontab) (task : TaskArgs) (cost : Int),
      (dealComplete c task cost).flag = false) := by
  refine ⟨?_, ?_, ?_, ?_, ?_, ?_⟩
  · cases flag
    · simp [timeoutAction]
    · by_cases h1 : OpTimeout = "email"
      · subst h1; simp [timeoutAction]
      · by_cases h2 : OpTimeout = "kill"
        · subst h2; simp [timeoutAction]
        · by_cases h3 : OpTimeout = "email_and_kill"
          · subst h3; simp [timeoutAction]
          · simp [timeoutAction, h1, h2, h3]
  · cases flag
    · simp [timeoutAction]
    · by_cases h1 : OpTimeout = "email"
      · subst h1; simp [timeoutAction]
      · by_cases h2 : OpTimeout = "kill"
        · subst h2; simp [timeoutAction]
        · by_cases h3 : OpTimeout = "email_and_kill"
          · subst h3; simp [timeoutAction]
          · simp [timeoutAction, h1, h2, h3]
  · intro f
    cases flag
    · simp [timeoutAction]
    · by_cases h1 : OpTimeout = "email"
      · subst h1; simp [timeoutAction]
      · by_cases h2 : OpTimeout = "kill"
        · subst h2; simp [timeoutAction]
        · by_cases h3 : OpTimeout = "email_and_kill"
          · subst h3; simp [timeoutAction]
          · simp [timeoutAction, h1, h2, h3]
  · cases flag <;> simp [timeoutAction]
  · simp [timeoutAction]
  · intro c task cost
    rfl

/-- Instance of C5: with `"email_and_kill"` and the flag still set the cancel
function 7 is called and a mail is sent; after completion nothing happens. -/
theorem timeoutAction_dispatch_witness :
    TimeoutEffect.cancel 7 ∈ timeoutAction true "email_and_kill" 7 ∧
    TimeoutEffect.sendMail ∈ timeoutAction true "email_and_kill" 7 ∧
    timeoutAction false "email_and_kill" 7 = [] :=
  ⟨(timeoutAction_dispatch true "email_and_kill" 7).1.mpr ⟨rfl, Or.inr rfl⟩,
   (timeoutAction_dispatch true "email_and_kill" 7).2.1.mpr ⟨rfl, Or.inr rfl⟩,
   (timeoutAction_dispatch true "email_and_kill" 7).2.2.2.2.1⟩

/-! ## `quickStart` -/

/-- C4: for a task with `Timeout == 5` the deadline that `quickStart` passes to
`context.WithTimeout` is 0 seconds, not 5; for `Timeout == 0` it is 60. -/
theorem quickStart_timeout_nonzero_is_zero :
    (taskK 1 5).Timeout = 5 ∧ quickStartTimeout (taskK 1 5) = 0 ∧
    quickStartTimeout (taskK 1 0) = 60 := by
  decide

/-! ## The kill goroutine -/

/-- The kill step when the handle is present with a non-nil slice. -/
theorem killTask_some (c : crontab) (task : TaskArgs) (h : handle) (arr : List CancelFunc)
    (hh : c.handleMap task.Id = some h) (harr : h.cancelCmdArray = some arr) :
    killTask c task
      = { c := c.store task.Id { h with cancelCmdArray := some [] },
          task := { task with State := 1 },
          fired := arr,
          synced := true } := by
  unfold killTask
  rw [hh]
  simp only
  rw [harr]

/-- The kill step when the handle is present with the nil slice. -/
theorem killTask_nil (c : crontab) (task : TaskArgs) (h : handle)
    (hh : c.handleMap task.Id = some h) (harr : h.cancelCmdArray = none) :
    killTask c task = { c := c, task := task, fired := [], synced := false } := by
  unfold killTask
  rw [hh]
  simp only
  rw [harr]

/-- The kill step when there is no handle. -/
theorem killTask_absent (c : crontab) (task : TaskArgs)
    (hh : c.handleMap task.Id = none) :
    killTask c task = { c := c, task := task, fired := [], synced := false } := by
  unfold killTask
  rw [hh]

/-- C6: two consecutive kill steps for a task leave the same handle table and
the same task record as one kill step, and the second step calls no cancel
function, so the set of called cancel functions is the same. -/
theorem killTask_idempotent (c : crontab) (task : TaskArgs) :
    (killTask (killTask c task).c (killTask c task).task).c = (killTask c task).c ∧
    (killTask (killTask c task).c (killTask c task).task).task = (killTask c task).task ∧
    (killTask (killTask c task).c (killTask c task).task).fired = [] ∧
    (∀ x, x ∈ (killTask c task).fired
              ++ (killTask (killTask c task).c (killTask c task).task).fired
          ↔ x ∈ (killTask c task).fired) := by
  cases hh : c.handleMap task.Id with
  | none =>
    rw [killTask_absent c task hh]
    simp only
    rw [killTask_absent c task hh]
    simp
  | some h =>
    cases harr : h.cancelCmdArray with
    | none =>
      rw [killTask_nil c task h hh harr]
      simp only
      rw [killTask_nil c task h hh harr]
      simp
    | some arr =>
      rw [killTask_some c task h arr hh harr]
      simp only
      have h2 : (c.store task.Id { h with cancelCmdArray := some [] }).handleMap
          ({ task with State := 1 } : TaskArgs).Id
            = some { h with cancelCmdArray := some [] } := store_same _ _ _
      rw [killTask_some _ _ _ [] h2 rfl]
      simp only
      refine ⟨?_, ?_, ?_, ?_⟩
      · exact store_store _ _ _ _
      · trivial
      · trivial
      · simp

/-- C7: for a task whose id has a handle, the kill step calls exactly the cancel
functions of the handle's `cancelCmdArray`, in order, and so does not call the
control cancel (a function that is not in that slice); the handle stays in the
table with the same `cancel`, `clockChan` and `timeout`; no other id's entry
changes.  For an id without a handle the step changes nothing and calls
nothing. -/
theorem killTask_fires_instances_only (c : crontab) (task : TaskArgs) :
    (∀ h, c.handleMap task.Id = some h →
      (killTask c task).fired = sliceElems h.cancelCmdArray ∧
      (h.cancel ∉ sliceElems h.cancelCmdArray → h.cancel ∉ (killTask c task).fired) ∧
      (∃ h1, (killTask c task).c.handleMap task.Id = some h1 ∧
        h1.cancel = h.cancel ∧ h1.clockChan = h.clockChan ∧ h1.timeout = h.timeout ∧
        sliceLen h1.cancelCmdArray = 0) ∧
      (∀ k, k ≠ task.Id → (killTask c task).c.handleMap k = c.handleMap k)) ∧
    (c.handleMap task.Id = none →
      (killTask c task).c = c ∧ (killTask c task).task = task ∧
      (killTask c task).fired = []) := by
  constructor
  · intro h hh
    cases harr : h.cancelCmdArray with
    | none =>
      rw [killTask_nil c task h hh harr]
      refine ⟨rfl, fun _ => by simp, ⟨h, hh, rfl, rfl, rfl, ?_⟩, fun _ _ => rfl⟩
      rw [harr]
      rfl
    | some arr =>
      rw [killTask_some c task h arr hh harr]
      refine ⟨rfl, fun hn => hn, ⟨_, store_same _ _ _, rfl, rfl, rfl, rfl⟩, ?_⟩
      intro k hk
      exact store_other _ _ _ _ hk
  · intro hh
    rw [killTask_absent c task hh]
    exact ⟨rfl, rfl, rfl⟩

/-- Instance of C7: the handle of `"k"` holds the instance cancels 5 and 6 and the
control cancel 1; the kill step calls 5 and 6 and not 1. -/
theorem killTask_fires_instances_only_witness :
    (killTask (tableK (some [5, 6])) (taskK 2 0)).fired = [5, 6] ∧
    (1 : CancelFunc) ∉ (killTask (tableK (some [5, 6])) (taskK 2 0)).fired :=
  ⟨((killTask_fires_instances_only (tableK (some [5, 6])) (taskK 2 0)).1
      (handleK (some [5, 6])) (by simp [tableK, taskK, store_same])).1,
   ((killTask_fires_instances_only (tableK (some [5, 6])) (taskK 2 0)).1
      (handleK (some [5, 6])) (by simp [tableK, taskK, store_same])).2.1
      (by simp [handleK, sliceElems])⟩

/-! ## The add goroutine -/

/-- C8 fails: the table holds a handle for `"k"` with control cancel 1, channel 2
and a running instance 5; processing add for a task with id `"k"` replaces that
handle by a new one. -/
theorem addTask_overwrites_existing :
    (tableK (some [5])).handleMap "k" = some (handleK (some [5])) ∧
    (addTask (tableK (some [5])) (taskK 1 0) 3 4).c.handleMap "k"
      = some { cancel := 3, cancelCmdArray := none, clockChan := 4, timeout := 0 } ∧
    (addTask (tableK (some [5])) (taskK 1 0) 3 4).c.handleMap "k"
      ≠ (tableK (some [5])).handleMap "k" := by
  refine ⟨?_, ?_, ?_⟩
  · simp [tableK, store_same]
  · simp [addTask, taskK, store_same]
  · simp [addTask, taskK, tableK, store_same, handleK]

/-- C8 as amended: processing add for a task always succeeds; whatever the table
held for the task's id, afterwards it holds a new handle with the new control
cancel, the new channel and the nil `cancelCmdArray`; the task's state is 1, its
other fields are kept, and no other id's entry changes. -/
theorem addTask_installs_new_handle (c : crontab) (task : TaskArgs) (cancel : CancelFunc)
    (clockChan : ClockChan) :
    (addTask c task cancel clockChan).c.handleMap task.Id
      = some { cancel := cancel, cancelCmdArray := none, clockChan := clockChan,
               timeout := 0 } ∧
    (addTask c task cancel clockChan).task = { task with State := 1 } ∧
    (∀ k, k ≠ task.Id → (addTask c task cancel clockChan).c.handleMap k = c.handleMap k) := by
  refine ⟨store_same _ _ _, rfl, ?_⟩
  intro k hk
  exact store_other _ _ _ _ hk

/-- Instance of C8 as amended: an add for `"k"` leaves the entry of `"j"` alone. -/
theorem addTask_installs_new_handle_witness :
    (addTask (tableK (some [5])) (taskK 1 0) 3 4).c.handleMap "j"
      = (tableK (some [5])).handleMap "j" :=
  (addTask_installs_new_handle (tableK (some [5])) (taskK 1 0) 3 4).2.2 "j" (by decide)

/-! ## Steps of a run -/

/-- Length of the slice after an admission step with a positive bound. -/
theorem admission_len (hdl : handle) (M : Int) (cancel : CancelFunc) (hM : 1 ≤ M) :
    ∃ hdl1 fired, admission hdl M cancel = some (hdl1, fired) ∧
      hdl1.cancel = hdl.cancel ∧ hdl1.clockChan = hdl.clockChan ∧
      (sliceLen hdl1.cancelCmdArray : Int)
        = if M ≤ (sliceLen hdl.cancelCmdArray : Int) then (sliceLen hdl.cancelCmdArray : Int)
          else (sliceLen hdl.cancelCmdArray : Int) + 1 := by
  by_cases hge : M ≤ (sliceLen hdl.cancelCmdArray : Int)
  · have hpos : 0 < sliceLen hdl.cancelCmdArray := by omega
    obtain ⟨c0, rest, harr⟩ := slice_cons_of_pos _ hpos
    refine ⟨_, _, admission_full hdl M cancel c0 rest harr hge, rfl, rfl, ?_⟩
    rw [if_pos hge, harr]
    simp [sliceLen]
  · refine ⟨_, _, admission_room hdl M cancel (by omega), rfl, rfl, ?_⟩
    rw [if_neg hge, sliceLen_eq_length hdl.cancelCmdArray]
    simp [sliceLen]

/-- The admission half of an instance goroutine, for a task with a handle and a
positive bound. -/
theorem step_launch (s : Sys) (cancel : CancelFunc) (now2 : Int) (hdl : handle)
    (hh : s.c.handleMap s.task.Id = some hdl) (hM : 1 ≤ s.task.MaxConcurrent) :
    ∃ s1 hdl1, step s (Event.launch cancel now2) = some s1 ∧
      s1.task = { s.task with LastExecTime := now2, State := 2,
                              NumberProcess := wrapInt32 (s.task.NumberProcess + 1) } ∧
      s1.c.handleMap s.task.Id = some hdl1 ∧
      (sliceLen hdl1.cancelCmdArray : Int)
        = if s.task.MaxConcurrent ≤ (sliceLen hdl.cancelCmdArray : Int)
          then (sliceLen hdl.cancelCmdArray : Int)
          else (sliceLen hdl.cancelCmdArray : Int) + 1 := by
  obtain ⟨hdl1, fired, hadm, -, -, hlen⟩ :=
    admission_len hdl s.task.MaxConcurrent cancel hM
  refine ⟨Sys.mk (s.c.store s.task.Id hdl1)
            { s.task with LastExecTime := now2, State := 2,
                          NumberProcess := wrapInt32 (s.task.NumberProcess + 1) },
          hdl1, ?_, rfl, store_same _ _ _, hlen⟩
  simp only [step, dealAdmission]
  rw [hh]
  simp only
  rw [hadm]

/-- The completion half of an instance goroutine. -/
theorem step_complete (s : Sys) (cost : Int) :
    ∃ s1, step s (Event.complete cost) = some s1 ∧ s1.c = s.c ∧
      s1.task.Id = s.task.Id ∧ s1.task.MaxConcurrent = s.task.MaxConcurrent ∧
      s1.task.NumberProcess = wrapInt32 (s.task.NumberProcess - 1) ∧
      s1.task.State = (if wrapInt32 (s.task.NumberProcess - 1) = 0 then 1 else 2) := by
  refine ⟨_, rfl, rfl, ?_, ?_, ?_, ?_⟩ <;>
    simp only [dealComplete] <;> split <;> simp_all

/-- The kill step inside a run, for a task with a handle. -/
theorem step_kill (s : Sys) (hdl : handle) (hh : s.c.handleMap s.task.Id = some hdl) :
    ∃ s1 hdl1, step s Event.kill = some s1 ∧
      s1.task.Id = s.task.Id ∧ s1.task.MaxConcurrent = s.task.MaxConcurrent ∧
      s1.task.NumberProcess = s.task.NumberProcess ∧
      (s1.task.State = 1 ∨ s1.task.State = s.task.State) ∧
      (hdl.cancelCmdArray ≠ none → s1.task.State = 1) ∧
      s1.c.handleMap s.task.Id = some hdl1 ∧ sliceLen hdl1.cancelCmdArray = 0 := by
  cases harr : hdl.cancelCmdArray with
  | none =>
    refine ⟨{ c := s.c, task := s.task }, hdl, ?_, rfl, rfl, rfl, Or.inr rfl,
      fun h => absurd rfl h, hh, ?_⟩
    · simp only [step]
      rw [killTask_nil s.c s.task hdl hh harr]
    · rw [harr]
      rfl
  | some arr =>
    refine ⟨{ c := s.c.store s.task.Id { hdl with cancelCmdArray := some [] },
              task := { s.task with State := 1 } }, _, ?_, rfl, rfl, rfl, Or.inl rfl,
      fun _ => rfl, store_same _ _ _, rfl⟩
    simp only [step]
    rw [killTask_some s.c s.task hdl arr hh harr]

/-- A property that every step preserves holds after every run, and the run
does not panic. -/
theorem run_preserves (P : Sys → Prop)
    (hstep : ∀ s e, P s → ∃ s1, step s e = some s1 ∧ P s1) :
    ∀ (evs : List Event) (s : Sys), P s → ∃ s1, run s evs = some s1 ∧ P s1 := by
  intro evs
  induction evs with
  | nil =>
    intro s hs
    exact ⟨s, rfl, hs⟩
  | cons e es ih =>
    intro s hs
    obtain ⟨s1, h1, hP1⟩ := hstep s e hs
    obtain ⟨s2, h2, hP2⟩ := ih s1 hP1
    refine ⟨s2, ?_, hP2⟩
    simp only [run]
    rw [h1]
    exact h2

/-- Every step keeps the id, the bound, the presence of the handle and the
bound on the length of its slice. -/
theorem step_keeps_bound (M : Int) (hM : 1 ≤ M) (id : String) (s : Sys) (e : Event)
    (hs : s.task.Id = id ∧ s.task.MaxConcurrent = M ∧
      ∃ h, s.c.handleMap id = some h ∧ (sliceLen h.cancelCmdArray : Int) ≤ M) :
    ∃ s1, step s e = some s1 ∧ s1.task.Id = id ∧ s1.task.MaxConcurrent = M ∧
      ∃ h, s1.c.handleMap id = some h ∧ (sliceLen h.cancelCmdArray : Int) ≤ M := by
  obtain ⟨hid, hmax, h, hh, hlen⟩ := hs
  subst hid
  cases e with
  | launch cancel now2 =>
    obtain ⟨s1, hdl1, hst, htask, hh1, hlen1⟩ :=
      step_launch s cancel now2 h hh (by omega)
    refine ⟨s1, hst, by rw [htask], by rw [htask]; exact hmax, hdl1, hh1, ?_⟩
    rw [hlen1]
    split <;> omega
  | complete cost =>
    obtain ⟨s1, hst, hc, hid1, hmax1, -, -⟩ := step_complete s cost
    refine ⟨s1, hst, hid1, by omega, h, ?_, hlen⟩
    rw [hc]
    exact hh
  | kill =>
    obtain ⟨s1, hdl1, hst, hid1, hmax1, -, -, -, hh1, hlen1⟩ := step_kill s h hh
    refine ⟨s1, hst, hid1, by omega, hdl1, hh1, ?_⟩
    omega

/-- C1: for a task with `MaxConcurrent >= 1`, the admission step on a handle
whose slice has length at most `MaxConcurrent` does not panic and leaves a slice
of length at most `MaxConcurrent`; and from a freshly added task every sequence
of steps (admissions, kills, and completions as well) runs without panic and
ends with the handle in the table and `len(cancelCmdArray) <= MaxConcurrent`. -/
theorem maxConcurrent_bound (M : Int) (hM : 1 ≤ M) :
    (∀ (hdl : handle) (cancel : CancelFunc), (sliceLen hdl.cancelCmdArray : Int) ≤ M →
      ∃ hdl1 fired, admission hdl M cancel = some (hdl1, fired) ∧
        (sliceLen hdl1.cancelCmdArray : Int) ≤ M) ∧
    (∀ (c : crontab) (task : TaskArgs) (k : CancelFunc) (ch : ClockChan)
        (evs : List Event), task.MaxConcurrent = M →
      ∃ s, run (fresh c task k ch) evs = some s ∧
        ∃ h, s.c.handleMap task.Id = some h ∧ (sliceLen h.cancelCmdArray : Int) ≤ M) := by
  constructor
  · intro hdl cancel hlen
    obtain ⟨hdl1, fired, hadm, -, -, hlen1⟩ := admission_len hdl M cancel hM
    refine ⟨hdl1, fired, hadm, ?_⟩
    rw [hlen1]
    split <;> omega
  · intro c task k ch evs hmax
    have h0 : (fresh c task k ch).task.Id = task.Id ∧
        (fresh c task k ch).task.MaxConcurrent = M ∧
        ∃ h, (fresh c task k ch).c.handleMap task.Id = some h ∧
          (sliceLen h.cancelCmdArray : Int) ≤ M := by
      refine ⟨rfl, hmax, _, store_same _ _ _, ?_⟩
      simp only [sliceLen]
      omega
    obtain ⟨s, hrun, -, -, h, hh, hlen⟩ :=
      run_preserves _ (step_keeps_bound M hM task.Id) evs _ h0
    exact ⟨s, hrun, h, hh, hlen⟩

/-- Instance of C1: bound 2; three admissions and a kill in between end with a
slice within the bound. -/
theorem maxConcurrent_bound_witness :
    ∃ s, run (fresh emptyCrontab (taskK 2 0) 1 2)
        [Event.launch 5 0, Event.launch 6 0, Event.launch 7 0, Event.kill, Event.launch 8 0]
          = some s ∧
      ∃ h, s.c.handleMap (taskK 2 0).Id = some h ∧ (sliceLen h.cancelCmdArray : Int) ≤ 2 :=
  (maxConcurrent_bound 2 (by decide)).2 emptyCrontab (taskK 2 0) 1 2
    [Event.launch 5 0, Event.launch 6 0, Event.launch 7 0, Event.kill, Event.launch 8 0] rfl

/-! ## The counter `NumberProcess` along a run -/

/-- The counter and the state along a run.  `n` is the number of instance
goroutines inside `execScript` at the start; the run is long enough for the
`int32` counter to wrap only after 2^31 steps, which the length bound excludes. -/
theorem run_tracked (M : Int) (hM : 1 ≤ M) (id : String) :
    ∀ (evs : List Event) (s : Sys) (n : Nat),
      s.task.Id = id → s.task.MaxConcurrent = M → s.task.NumberProcess = (n : Int) →
      (∃ h, s.c.handleMap id = some h) →
      (s.task.State = 1 ∨ s.task.State = 2) →
      (s.task.State = 2 → 0 < n) →
      balancedFrom n evs = true → n + evs.length < 2147483648 →
      ∃ s1, run s evs = some s1 ∧
        s1.task.NumberProcess = (n : Int) + admissions evs - completions evs ∧
        0 ≤ s1.task.NumberProcess ∧
        (s1.task.State = 1 ∨ s1.task.State = 2) ∧
        (s1.task.State = 2 → 0 < s1.task.NumberProcess) ∧
        (noKill evs = true → (s.task.State = 1 → n = 0) →
          s1.task.State = 1 → s1.task.NumberProcess = 0) ∧
        (noKill evs = true → ∀ (a : Nat) (h : handle), s.c.handleMap id = some h →
          (sliceLen h.cancelCmdArray : Int) = min (a : Int) M →
          ∃ h1, s1.c.handleMap id = some h1 ∧
            (sliceLen h1.cancelCmdArray : Int) = min ((a + admissions evs : Nat) : Int) M) := by
  intro evs
  induction evs with
  | nil =>
    intro s n _ _ hnp _ hst h2 _ _
    refine ⟨s, rfl, ?_, ?_, hst, ?_, ?_, ?_⟩
    · simp [admissions, completions, hnp]
    · omega
    · intro h
      have := h2 h
      omega
    · intro _ h1 hs1
      have := h1 hs1
      omega
    · intro _ a h hh hlen
      exact ⟨h, hh, by simpa [admissions] using hlen⟩
  | cons e es ih =>
    intro s n hid hmax hnp hh hst h2 hbal hlen
    obtain ⟨hdl, hh⟩ := hh
    subst hid
    have hlen1 : n + es.length + 1 < 2147483648 := by
      simp only [List.length_cons] at hlen
      omega
    cases e with
    | launch cancel now2 =>
      obtain ⟨s1, hdl1, hstep, htask, hh1, hl1⟩ :=
        step_launch s cancel now2 hdl hh (by omega)
      have hnp1 : s1.task.NumberProcess = ((n + 1 : Nat) : Int) := by
        rw [htask]
        show wrapInt32 (s.task.NumberProcess + 1) = _
        rw [hnp, wrapInt32_of_range _ (by omega) (by omega)]
        push_cast
        rfl
      have hst1 : s1.task.State = 2 := by rw [htask]
      obtain ⟨s2, hrun, hnp2, hge2, hst2, hpos2, hidle2, harr2⟩ :=
        ih s1 (n + 1) (by rw [htask]) (by rw [htask]; exact hmax) hnp1 ⟨hdl1, hh1⟩
          (Or.inr hst1) (fun _ => by omega) (by simpa [balancedFrom] using hbal)
          (by omega)
      refine ⟨s2, ?_, ?_, hge2, hst2, hpos2, ?_, ?_⟩
      · simp only [run]
        rw [hstep]
        exact hrun
      · rw [hnp2]
        simp only [admissions, completions]
        push_cast
        omega
      · intro hnk _ hs2
        exact hidle2 (by simpa [noKill] using hnk) (fun h => by omega) hs2
      · intro hnk a h hha hla
        rw [hh] at hha
        cases hha
        have hl1a : (sliceLen hdl1.cancelCmdArray : Int) = min ((a + 1 : Nat) : Int) M := by
          rw [hl1, hla, hmax]
          push_cast
          split <;> omega
        obtain ⟨h3, hh3, hl3⟩ :=
          harr2 (by simpa [noKill] using hnk) (a + 1) hdl1 hh1 hl1a
        refine ⟨h3, hh3, ?_⟩
        rw [hl3]
        simp only [admissions]
        push_cast
        omega
    | complete cost =>
      cases n with
      | zero => simp [balancedFrom] at hbal
      | succ m =>
        obtain ⟨s1, hstep, hc, hid1, hmax1, hnp1, hstate1⟩ := step_complete s cost
        have hw : wrapInt32 (s.task.NumberProcess - 1) = (m : Int) := by
          rw [hnp, wrapInt32_of_range _ (by push_cast; omega) (by push_cast; omega)]
          push_cast
          omega
        rw [hw] at hnp1 hstate1
        have hidle1 : s1.task.State = 1 → m = 0 := by
          intro h1
          rw [hstate1] at h1
          split at h1
          · omega
          · omega
        have hrun1 : s1.task.State = 2 → 0 < m := by
          intro h1
          rw [hstate1] at h1
          split at h1
          · omega
          · omega
        have hst1 : s1.task.State = 1 ∨ s1.task.State = 2 := by
          rw [hstate1]
          split
          · exact Or.inl rfl
          · exact Or.inr rfl
        obtain ⟨s2, hrun, hnp2, hge2, hst2, hpos2, hidle2, harr2⟩ :=
          ih s1 m hid1 (by omega) hnp1 ⟨hdl, by rw [hc]; exact hh⟩ hst1 hrun1
            (by simpa [balancedFrom] using hbal) (by omega)
        refine ⟨s2, ?_, ?_, hge2, hst2, hpos2, ?_, ?_⟩
        · simp only [run]
          rw [hstep]
          exact hrun
        · rw [hnp2]
          simp only [admissions, completions]
          push_cast
          omega
        · intro hnk _ hs2
          exact hidle2 (by simpa [noKill] using hnk) hidle1 hs2
        · intro hnk a h hha hla
          obtain ⟨h3, hh3, hl3⟩ :=
            harr2 (by simpa [noKill] using hnk) a h (by rw [hc]; exact hha) hla
          refine ⟨h3, hh3, ?_⟩
          rw [hl3]
          simp only [admissions]
    | kill =>
      obtain ⟨s1, hdl1, hstep, hid1, hmax1, hnp1, hstate1, -, hh1, -⟩ :=
        step_kill s hdl hh
      have hrun1 : s1.task.State = 2 → 0 < n := by
        intro h1
        rcases hstate1 with h | h
        · omega
        · exact h2 (by omega)
      have hst1 : s1.task.State = 1 ∨ s1.task.State = 2 := by
        rcases hstate1 with h | h
        · exact Or.inl h
        · rw [h]
          exact hst
      obtain ⟨s2, hrun, hnp2, hge2, hst2, hpos2, -, -⟩ :=
        ih s1 n hid1 (by omega) (by omega) ⟨hdl1, hh1⟩ hst1 hrun1
          (by simpa [balancedFrom] using hbal) (by omega)
      refine ⟨s2, ?_, ?_, hge2, hst2, hpos2, ?_, ?_⟩
      · simp only [run]
        rw [hstep]
        exact hrun
      · rw [hnp2]
        simp only [admissions, completions]
      · intro hnk
        simp [noKill] at hnk
      · intro hnk
        simp [noKill] at hnk

/-- C3 fails: a task with bound 1 is added, one instance is admitted and then
completes.  `NumberProcess` is back to 0 while the instance's cancel function 5
is still in `cancelCmdArray`, whose length is 1. -/
theorem counter_list_disagree_after_completion :
    ∃ s, run (fresh emptyCrontab (taskK 1 0) 1 2) [Event.launch 5 0, Event.complete 0]
        = some s ∧
      s.task.NumberProcess = 0 ∧ s.cancelCmdArray = some [5] ∧
      s.task.NumberProcess ≠ (sliceLen s.cancelCmdArray : Int) := by
  refine ⟨_, rfl, ?_, ?_, ?_⟩
  · decide
  · decide
  · decide

/-- C3 as amended: for a task with `MaxConcurrent >= 1` freshly added with
`NumberProcess == 0`, after every sequence of fewer than 2^31 admission and
completion steps in which each completion follows its admission, the run has
not panicked, `NumberProcess` is the number of admissions minus the number of
completions and `len(cancelCmdArray)` is the smaller of the number of
admissions and `MaxConcurrent`; so the two are equal while nothing has
completed and the bound was not exceeded.  The completion half of an instance
goroutine leaves the handle table as it is and only decrements `NumberProcess`. -/
theorem counter_and_list_by_counts (c : crontab) (task : TaskArgs) (k : CancelFunc)
    (ch : ClockChan) (evs : List Event) (hM : 1 ≤ task.MaxConcurrent)
    (h0 : task.NumberProcess = 0) (hbal : balancedFrom 0 evs = true)
    (hnk : noKill evs = true) (hlen : evs.length < 2147483648) :
    (∃ s h, run (fresh c task k ch) evs = some s ∧ s.c.handleMap task.Id = some h ∧
      s.task.NumberProcess = (admissions evs : Int) - (completions evs : Int) ∧
      (sliceLen h.cancelCmdArray : Int) = min (admissions evs : Int) task.MaxConcurrent ∧
      (completions evs = 0 → (admissions evs : Int) ≤ task.MaxConcurrent →
        s.task.NumberProcess = (sliceLen h.cancelCmdArray : Int))) ∧
    (∀ (d : crontab) (t : TaskArgs) (cost : Int),
      (dealComplete d t cost).c = d ∧
      (dealComplete d t cost).task.NumberProcess = wrapInt32 (t.NumberProcess - 1)) := by
  constructor
  · obtain ⟨s, hrun, hnp, -, -, -, -, harr⟩ :=
      run_tracked task.MaxConcurrent hM task.Id evs (fresh c task k ch) 0 rfl rfl
        (by simpa [fresh, addTask] using h0) ⟨_, store_same _ _ _⟩ (Or.inl rfl)
        (fun h => by simp [fresh, addTask] at h) hbal (by omega)
    obtain ⟨h1, hh1, hl1⟩ := harr hnk 0 _ (store_same _ _ _) (by simp [sliceLen]; omega)
    refine ⟨s, h1, hrun, hh1, ?_, ?_, ?_⟩
    · rw [hnp]
      push_cast
      omega
    · rw [hl1]
      push_cast
      simp
    · intro hc hle
      rw [hnp, hl1, hc]
      push_cast
      simp only [zero_add, sub_zero]
      omega
  · intro d t cost
    constructor
    · rfl
    · simp only [dealComplete]
      split <;> rfl

/-- Instance of C3 as amended: bound 1, the run admit, complete, admit, admit. -/
theorem counter_and_list_by_counts_witness :
    ∃ s h, run (fresh emptyCrontab (taskK 1 0) 1 2)
        [Event.launch 5 0, Event.complete 0, Event.launch 6 0, Event.launch 7 0] = some s ∧
      s.c.handleMap (taskK 1 0).Id = some h ∧
      s.task.NumberProcess = 3 - 1 ∧
      (sliceLen h.cancelCmdArray : Int) = 1 := by
  obtain ⟨s, h, hrun, hh, hnp, hl, -⟩ :=
    (counter_and_list_by_counts emptyCrontab (taskK 1 0) 1 2
      [Event.launch 5 0, Event.complete 0, Event.launch 6 0, Event.launch 7 0]
      (by decide) rfl (by decide) (by decide) (by simp)).1
  exact ⟨s, h, hrun, hh, by simpa [admissions, completions] using hnp,
    by simpa [admissions, taskK] using hl⟩

/-! ## Blocks that run without interruption -/

theorem setPc_same (pc : Nat → Pc) (g : Nat) (p : Pc) : setPc pc g p g = p := by
  simp [setPc]

theorem setPc_setPc (pc : Nat → Pc) (g : Nat) (p q : Pc) :
    setPc (setPc pc g p) g q = setPc pc g q := by
  funext k
  by_cases hk : k = g <;> simp [setPc, hk]

theorem microRun_append (as bs : List Micro) :
    ∀ m : Conc, microRun m (as ++ bs) = (microRun m as).bind (fun m1 => microRun m1 bs) := by
  induction as with
  | nil =>
    intro m
    rfl
  | cons a as ih =>
    intro m
    simp only [List.cons_append, microRun]
    cases microStep m a with
    | none => rfl
    | some m1 => exact ih m1

/-- The three advances of a launch, run in a row, are the admission half of the
instance goroutine. -/
theorem launch_block (m : Conc) (g : Nat) (cancel : CancelFunc) (now2 : Int)
    (hg : m.pc g = Pc.absent) (s1 : Sys)
    (hstep : step { c := m.c, task := m.task } (Event.launch cancel now2) = some s1) :
    microRun m (Block.launch g cancel now2).micro
      = some { c := s1.c, task := s1.task, pc := setPc m.pc g Pc.running,
               killPc := m.killPc } := by
  simp only [step, dealAdmission] at hstep
  simp only [Block.micro, microRun, microStep, hg, setPc_same, setPc_setPc]
  cases hh : m.c.handleMap m.task.Id with
  | none => simp [hh] at hstep
  | some hdl =>
    simp only [hh] at hstep ⊢
    cases hadm : admission hdl m.task.MaxConcurrent cancel with
    | none => simp [hadm] at hstep
    | some r =>
      obtain ⟨hdl1, fired⟩ := r
      simp only [hadm] at hstep ⊢
      simp only [Option.some.injEq] at hstep
      subst hstep
      simp only [setPc_same, setPc_setPc]

/-- The three advances of a completion, run in a row, are the completion half
of the instance goroutine. -/
theorem complete_block (m : Conc) (g : Nat) (cost : Int) (hg : m.pc g = Pc.running) :
    microRun m (Block.complete g cost).micro
      = some { c := m.c, task := (dealComplete m.c m.task cost).task,
               pc := setPc m.pc g Pc.absent, killPc := m.killPc } := by
  simp only [Block.micro, microRun, microStep, hg, setPc_same, setPc_setPc, dealComplete]
  by_cases hz : wrapInt32 (m.task.NumberProcess - 1) = 0 <;> simp [hz]

/-- The two advances of the kill goroutine, run in a row, are the kill step. -/
theorem kill_block (m : Conc) (hk : m.killPc = none) :
    microRun m Block.kill.micro
      = some { c := (killTask m.c m.task).c, task := (killTask m.c m.task).task,
               pc := m.pc, killPc := none } := by
  simp only [Block.micro, microRun, microStep, hk]
  cases hh : m.c.handleMap m.task.Id with
  | none =>
    rw [killTask_absent m.c m.task hh]
  | some h =>
    cases harr : h.cancelCmdArray with
    | none =>
      rw [killTask_nil m.c m.task h hh harr]
      simp [harr]
    | some arr =>
      rw [killTask_some m.c m.task h arr hh harr]
      simp [harr]

/-- Well-formed blocks give a balanced sequence of steps. -/
theorem wellFormed_balanced :
    ∀ (bs : List Block) (running : List Nat), running.Nodup →
      wellFormedFrom running bs = true →
      balancedFrom running.length (bs.map Block.toEvent) = true := by
  intro bs
  induction bs with
  | nil =>
    intro running _ _
    rfl
  | cons b bs ih =>
    intro running hnd hwf
    cases b with
    | launch g cancel now2 =>
      by_cases hin : g ∈ running
      · simp [wellFormedFrom, hin] at hwf
      · simp only [wellFormedFrom, hin, if_false] at hwf
        have := ih (g :: running) (List.nodup_cons.mpr ⟨hin, hnd⟩) hwf
        simpa [Block.toEvent, balancedFrom] using this
    | complete g cost =>
      by_cases hin : g ∈ running
      · simp only [wellFormedFrom, hin, if_true] at hwf
        have hlen := List.length_erase_of_mem hin
        have hpos : 0 < running.length := List.length_pos_of_mem hin
        have := ih (running.erase g) (hnd.erase g) hwf
        obtain ⟨k, hk⟩ : ∃ k, running.length = k + 1 := ⟨running.length - 1, by omega⟩
        have hk2 : (running.erase g).length = k := by omega
        rw [hk2] at this
        simp only [List.map_cons, Block.toEvent, hk, balancedFrom]
        exact this
      · simp [wellFormedFrom, hin] at hwf
    | kill =>
      simp only [wellFormedFrom] at hwf
      have := ih running hnd hwf
      simpa [Block.toEvent, balancedFrom] using this

/-- A serial schedule of well-formed blocks runs, and ends in the state of the
corresponding sequence of steps with every goroutine absent or inside
`execScript`. -/
theorem serial_run :
    ∀ (bs : List Block) (running : List Nat) (m : Conc) (s1 : Sys),
      running.Nodup → m.killPc = none →
      (∀ g, m.pc g = if g ∈ running then Pc.running else Pc.absent) →
      wellFormedFrom running bs = true →
      run { c := m.c, task := m.task } (bs.map Block.toEvent) = some s1 →
      ∃ m1, microRun m (serial bs) = some m1 ∧ m1.c = s1.c ∧ m1.task = s1.task ∧
        m1.killPc = none ∧ ∀ g, m1.pc g = Pc.absent ∨ m1.pc g = Pc.running := by
  intro bs
  induction bs with
  | nil =>
    intro running m s1 _ hk hpc _ hrun
    simp only [List.map_nil, run, Option.some.injEq] at hrun
    subst hrun
    refine ⟨m, rfl, rfl, rfl, hk, ?_⟩
    intro g
    rw [hpc g]
    split
    · exact Or.inr rfl
    · exact Or.inl rfl
  | cons b bs ih =>
    intro running m s1 hnd hk hpc hwf hrun
    simp only [List.map_cons, run] at hrun
    cases hstep : step { c := m.c, task := m.task } b.toEvent with
    | none => simp [hstep] at hrun
    | some s0 =>
      simp only [hstep] at hrun
      simp only [serial, microRun_append]
      cases b with
      | launch g cancel now2 =>
        by_cases hin : g ∈ running
        · simp [wellFormedFrom, hin] at hwf
        · simp only [wellFormedFrom, hin, if_false] at hwf
          have hg : m.pc g = Pc.absent := by
            rw [hpc g, if_neg hin]
          rw [launch_block m g cancel now2 hg s0 hstep]
          simp only [Option.some_bind]
          refine ih (g :: running) _ s1 (List.nodup_cons.mpr ⟨hin, hnd⟩) hk ?_ hwf hrun
          intro k
          by_cases hkg : k = g
          · subst hkg
            simp [setPc]
          · simp [setPc, hkg, hpc k]
      | complete g cost =>
        by_cases hin : g ∈ running
        · simp only [wellFormedFrom, hin, if_true] at hwf
          have hg : m.pc g = Pc.running := by
            rw [hpc g, if_pos hin]
          have hs0 : s0 = { c := m.c, task := (dealComplete m.c m.task cost).task } := by
            simp only [Block.toEvent, step, Option.some.injEq] at hstep
            rw [← hstep]
            rfl
          subst hs0
          rw [complete_block m g cost hg]
          simp only [Option.some_bind]
          refine ih (running.erase g) _ s1 (hnd.erase g) hk ?_ hwf hrun
          intro k
          by_cases hkg : k = g
          · subst hkg
            simp [setPc, hnd.not_mem_erase]
          · simp [setPc, hkg, hpc k, List.mem_erase_of_ne hkg]
        · simp [wellFormedFrom, hin] at hwf
      | kill =>
        simp only [wellFormedFrom] at hwf
        have hs0 : s0 = { c := (killTask m.c m.task).c, task := (killTask m.c m.task).task } := by
          simp only [Block.toEvent, step, Option.some.injEq] at hstep
          rw [← hstep]
        subst hs0
        rw [kill_block m hk]
        simp only [Option.some_bind]
        exact ih running _ s1 hnd rfl hpc hwf hrun

/-- A launch that does not panic leaves the state at 2. -/
theorem step_launch_state (s : Sys) (cancel : CancelFunc) (now2 : Int) (s0 : Sys)
    (hstep : step s (Event.launch cancel now2) = some s0) : s0.task.State = 2 := by
  simp only [step, dealAdmission] at hstep
  cases hh : s.c.handleMap s.task.Id with
  | none => simp [hh] at hstep
  | some hdl =>
    simp only [hh] at hstep
    cases hadm : admission hdl s.task.MaxConcurrent cancel with
    | none => simp [hadm] at hstep
    | some r =>
      obtain ⟨hdl1, fired⟩ := r
      simp only [hadm, Option.some.injEq] at hstep
      subst hstep
      rfl

/-- After a run whose last step is a launch or a completion, state 1 comes
with the counter at 0. -/
theorem run_idle_after_non_kill :
    ∀ (evs : List Event) (s s1 : Sys), run s evs = some s1 →
      evs.getLast? ≠ some Event.kill →
      (evs = [] → s.task.State = 1 → s.task.NumberProcess = 0) →
      s1.task.State = 1 → s1.task.NumberProcess = 0 := by
  intro evs
  induction evs with
  | nil =>
    intro s s1 hrun _ h0
    simp only [run, Option.some.injEq] at hrun
    subst hrun
    exact h0 rfl
  | cons e es ih =>
    intro s s1 hrun hlast _
    simp only [run] at hrun
    cases hstep : step s e with
    | none => simp [hstep] at hrun
    | some s0 =>
      simp only [hstep] at hrun
      cases es with
      | nil =>
        simp only [run, Option.some.injEq] at hrun
        subst hrun
        cases e with
        | launch cancel now2 =>
          intro h1
          have h2 := step_launch_state s cancel now2 s0 hstep
          omega
        | complete cost =>
          obtain ⟨s2, hs2, -, -, -, hnp, hst⟩ := step_complete s cost
          rw [hstep, Option.some.injEq] at hs2
          subst hs2
          intro h1
          rw [hnp]
          rw [hst] at h1
          split at h1
          · assumption
          · omega
        | kill => simp at hlast
      | cons e2 es2 =>
        refine ih s0 s1 hrun ?_ (fun h => by simp at h)
        simpa using hlast

/-- C9 fails.  First, with the blocks run one after the other as the claim lists
them: a task with bound 1 is added, one instance is launched and the kill
goroutine runs before the instance has returned from `execScript`; the state is
1 (Idle) while `NumberProcess` is 1.  Second and third, the writes of
`task.State` stand outside the lock, and when two goroutines interleave there
the invariant fails without any kill: two instances that return together can
leave state 2 with `NumberProcess` 0 and no goroutine left; an instance that
returns while another one is between line 218 and line 254 can leave state 1
with `NumberProcess` 1. -/
theorem state_counter_invariant_fails :
    (∃ m, microRun (freshConc emptyCrontab (taskK 1 0) 1 2)
        (serial [Block.launch 0 5 0, Block.kill]) = some m ∧
      m.task.State = 1 ∧ m.task.NumberProcess = 1 ∧
      ¬ (m.task.State = 1 → m.task.NumberProcess = 0)) ∧
    (∃ m, microRun (freshConc emptyCrontab (taskK 2 0) 1 2)
        (serial [Block.launch 0 5 0, Block.launch 1 6 0] ++
          [Micro.decrement 0 0, Micro.readCounter 0, Micro.decrement 1 0,
           Micro.readCounter 1, Micro.writeState 1, Micro.writeState 0]) = some m ∧
      m.task.State = 2 ∧ m.task.NumberProcess = 0 ∧ m.killPc = none ∧
      (∀ g, m.pc g = Pc.absent) ∧
      ¬ (m.task.State = 2 → 0 < m.task.NumberProcess)) ∧
    (∃ m, microRun (freshConc emptyCrontab (taskK 2 0) 1 2)
        (serial [Block.launch 0 5 0] ++
          [Micro.enter 1 0, Micro.decrement 0 0, Micro.readCounter 0, Micro.writeState 0,
           Micro.lockedAdmission 1 6, Micro.increment 1]) = some m ∧
      m.task.State = 1 ∧ m.task.NumberProcess = 1 ∧ m.killPc = none ∧
      (∀ g, m.pc g = Pc.absent ∨ m.pc g = Pc.running) ∧
      ¬ (m.task.State = 1 → m.task.NumberProcess = 0)) := by
  refine ⟨⟨_, rfl, ?_, ?_, ?_⟩, ⟨_, rfl, ?_, ?_, ?_, ?_, ?_⟩, ⟨_, rfl, ?_, ?_, ?_, ?_, ?_⟩⟩
  · decide
  · decide
  · decide
  · decide
  · decide
  · decide
  · intro g
    by_cases h0 : g = 0
    · subst h0
      decide
    · by_cases h1 : g = 1
      · subst h1
        decide
      · simp [setPc, freshConc, h0, h1]
  · decide
  · decide
  · decide
  · decide
  · intro g
    by_cases h1 : g = 1
    · subst h1
      right
      decide
    · left
      by_cases h0 : g = 0
      · subst h0
        decide
      · simp [setPc, freshConc, h0, h1]
  · decide

/-- C9 as amended: for a task with `MaxConcurrent >= 1` freshly added with
`NumberProcess == 0`, let fewer than 2^31 launches, completions and kills run
one after the other, each from its first line to its last, every completion
being that of a running instance.  Then the schedule runs without panic, every
goroutine is absent or inside `execScript`, the state is 1 or 2,
`NumberProcess` is the number of launches minus the number of completions, a
task with state 2 (Running) has `NumberProcess > 0`, and a task with state 1
(Idle) has `NumberProcess == 0` unless the last block was a kill.  The kill
goroutine sets the state to 1 and leaves `NumberProcess` as it is. -/
theorem state_counter_invariant (c : crontab) (task : TaskArgs) (k : CancelFunc)
    (ch : ClockChan) (bs : List Block) (hM : 1 ≤ task.MaxConcurrent)
    (h0 : task.NumberProcess = 0) (hwf : wellFormedFrom [] bs = true)
    (hlen : bs.length < 2147483648) :
    (∃ m, microRun (freshConc c task k ch) (serial bs) = some m ∧
      m.killPc = none ∧ (∀ g, m.pc g = Pc.absent ∨ m.pc g = Pc.running) ∧
      (m.task.State = 1 ∨ m.task.State = 2) ∧
      m.task.NumberProcess
        = (admissions (bs.map Block.toEvent) : Int)
          - (completions (bs.map Block.toEvent) : Int) ∧
      (m.task.State = 2 → 0 < m.task.NumberProcess) ∧
      (bs.getLast? ≠ some Block.kill → m.task.State = 1 → m.task.NumberProcess = 0)) ∧
    (∀ (d : crontab) (t : TaskArgs),
      (killTask d t).task.NumberProcess = t.NumberProcess ∧
      ((killTask d t).task.State = 1 ∨ (killTask d t).task = t)) := by
  constructor
  · have hbal := wellFormed_balanced bs [] List.nodup_nil hwf
    obtain ⟨s, hrun, hnp, -, hst, hpos, -, -⟩ :=
      run_tracked task.MaxConcurrent hM task.Id (bs.map Block.toEvent)
        (fresh c task k ch) 0 rfl rfl
        (by simpa [fresh, addTask] using h0) ⟨_, store_same _ _ _⟩ (Or.inl rfl)
        (fun h => by simp [fresh, addTask] at h) hbal
        (by rw [List.length_map]; omega)
    obtain ⟨m, hm, -, htask, hk, hq⟩ :=
      serial_run bs [] (freshConc c task k ch) s List.nodup_nil rfl
        (fun g => by simp [freshConc]) hwf hrun
    refine ⟨m, hm, hk, hq, ?_, ?_, ?_, ?_⟩
    · rw [htask]
      exact hst
    · rw [htask, hnp]
      push_cast
      omega
    · rw [htask]
      exact hpos
    · intro hlast
      rw [htask]
      refine run_idle_after_non_kill (bs.map Block.toEvent) (fresh c task k ch) s hrun ?_
        (fun _ _ => by simpa [fresh, addTask] using h0)
      rw [List.getLast?_map]
      intro hmap
      apply hlast
      cases hb : bs.getLast? with
      | none => simp [hb] at hmap
      | some b =>
        rw [hb] at hmap
        cases b with
        | launch g cancel now2 => simp [Block.toEvent] at hmap
        | complete g cost => simp [Block.toEvent] at hmap
        | kill => rfl
  · intro d t
    cases hh : d.handleMap t.Id with
    | none =>
      rw [killTask_absent d t hh]
      exact ⟨rfl, Or.inr rfl⟩
    | some h =>
      cases harr : h.cancelCmdArray with
      | none =>
        rw [killTask_nil d t h hh harr]
        exact ⟨rfl, Or.inr rfl⟩
      | some arr =>
        rw [killTask_some d t h arr hh harr]
        exact ⟨rfl, Or.inl rfl⟩

/-- Instance of C9 as amended: bound 2; two launches, a kill, then the
completion of the first instance.  The last block is a completion, so both
halves of the invariant hold at the end. -/
theorem state_counter_invariant_witness :
    ∃ m, microRun (freshConc emptyCrontab (taskK 2 0) 1 2)
        (serial [Block.launch 0 5 0, Block.launch 1 6 0, Block.kill, Block.complete 0 0])
          = some m ∧
      m.task.NumberProcess = 2 - 1 ∧
      (m.task.State = 2 → 0 < m.task.NumberProcess) ∧
      (m.task.State = 1 → m.task.NumberProcess = 0) := by
  obtain ⟨m, hrun, -, -, -, hnp, hpos, hidle⟩ :=
    (state_counter_invariant emptyCrontab (taskK 2 0) 1 2
      [Block.launch 0 5 0, Block.launch 1 6 0, Block.kill, Block.complete 0 0]
      (by decide) rfl (by decide) (by simp)).1
  exact ⟨m, hrun, by simpa [admissions, completions, Block.toEvent] using hnp, hpos,
    hidle (by decide)⟩

end Jiacrontab
